import Mathlib

/-!
Verification development for the attention module of the Informer_Paddle
repository (src/models/attn.py and src/utils/masking.py).

Tensors are shallowly embedded as curried functions over `Fin`-indexed axes
with rational entries.  Floating point arithmetic is modelled by exact
rational arithmetic; the two transcendental ingredients are threaded as
explicit parameters:

* `f : ℚ → ℚ` stands for the exponential used by `F.softmax`.  Masking with
  `-np.inf` before a softmax is modelled by `softmaxNeg`, which gives masked
  entries weight `0` (the value `exp` assigns to `-∞`) and normalises the
  unmasked entries; this is exactly the behaviour of
  `softmax(where(mask, -inf, scores))` for a positive scale.
* `invSqrt : ℕ → ℚ` stands for `n ↦ 1/sqrt(n)`, the default scale.
* `cln : ℕ → ℕ` stands for `n ↦ ⌈ln n⌉` as computed by
  `np.ceil(np.log(n)).astype(int)` in `ProbAttention.forward`; the claims
  about the sample sizes concern the clipping around this quantity, which is
  modelled exactly, while the float logarithm itself is kept abstract.
* `r : ℕ → ℕ → Fin LK` is the random tape: `r q s` is the value the call
  `paddle.randint(high=L_K, shape=[L_Q, sample_k])` produced at row `q`,
  column `s` (only `q < L_Q`, `s < sample_k` are ever read).

`paddle.randint` draws a `[L_Q, sample_k]` table once per call; batch and
head axes only appear through the subsequent `reshape`/`tile`, which is the
content of claims C1 and C2 below.
-/

namespace Informer

variable {B H L S LQ LK LV E Dv : ℕ}

/-- Configuration stored by `FullAttention.__init__` and
`ProbAttention.__init__`: `mask_flag`, `factor`, `scale` (`None` or a
number), `attention_dropout` (the rate handed to `nn.Dropout`) and
`output_attention`. -/
structure AttnCfg where
  mask_flag : Bool := true
  factor : ℕ := 5
  scale : Option ℚ := none
  dropoutRate : ℚ := 1/10
  output_attention : Bool := false

/-- `softmax(where(mask, -inf, s))` along one row of length `n`: a masked
entry gets weight `0` (the exponential of `-∞`) and each unmasked entry `j`
gets `f (s j)` normalised by the sum of the unmasked exponentials. -/
def softmaxNeg (n : ℕ) (f : ℚ → ℚ) (mask : Fin n → Bool) (s : Fin n → ℚ) :
    Fin n → ℚ :=
  fun j => (if mask j then 0 else f (s j)) /
    ∑ k, if mask k then 0 else f (s k)

/-- `TriangularCausalMask(B, L)` from src/utils/masking.py:
`paddle.triu(paddle.ones([B, 1, L, L], dtype=bool), diagonal=1)`, i.e. entry
`(i, j)` is forbidden exactly when `j ≥ i + 1`; the mask does not depend on
the batch coordinate. -/
def triangularCausalMask (B L : ℕ) : Fin B → Fin L → Fin L → Bool :=
  fun _ i j => decide ((i : ℕ) + 1 ≤ (j : ℕ))

/-- One row of `ProbMask` from src/utils/masking.py: the full
`[L_Q, L_K]` upper-triangular (diagonal 1) mask, row-gathered at the
selected query index `q`; entry `j` is forbidden exactly when
`j ≥ q + 1`. -/
def probMaskRow (q : Fin LQ) : Fin LV → Bool :=
  fun j => decide ((q : ℕ) + 1 ≤ (j : ℕ))

/-- `U_part if U_part < L_K else L_K` (and the same clip for `u`) in
`ProbAttention.forward`. -/
def clipTo (v L : ℕ) : ℕ := if v < L then v else L

/-- `U_part = factor * ceil(ln L_K)` clipped to `L_K`
(`ProbAttention.forward`, with `cln` standing for the float computation
`np.ceil(np.log(·)).astype(int)`). -/
def uPartOf (factor : ℕ) (cln : ℕ → ℕ) (LK : ℕ) : ℕ :=
  clipTo (factor * cln LK) LK

/-- `u = factor * ceil(ln L_Q)` clipped to `L_Q` (`ProbAttention.forward`). -/
def nTopOf (factor : ℕ) (cln : ℕ → ℕ) (LQ : ℕ) : ℕ :=
  clipTo (factor * cln LQ) LQ

/-- `M.topk(n_top, sorted=False)[1]` along one `[L_Q]` slice: the indices of
the `k` largest entries of `M`.  paddle leaves the order of the returned
indices unspecified (`sorted=False`); the embedding fixes the deterministic
choice "sort all indices by decreasing value, stable, and take the first
`k`". -/
def topkIndices {L : ℕ} (M : Fin L → ℚ) (k : ℕ) : List (Fin L) :=
  (List.insertionSort (fun i j => M j ≤ M i) (List.finRange L)).take k

/-- `x.max(-1)` over the first `m` slots of one row (`0` for an empty row,
which paddle rejects anyway). -/
def rowMax (m : ℕ) (g : ℕ → ℚ) : ℚ :=
  (((List.range m).map g).max?).getD 0

/-- `K_expand = K.unsqueeze(-3).expand([B, H, L_Q, L_K, E])` in
`ProbAttention._prob_QK`. -/
def K_expand (K : Fin B → Fin H → Fin LK → Fin E → ℚ) :
    Fin B → Fin H → Fin LQ → Fin LK → Fin E → ℚ :=
  fun b h _ j e => K b h j e

/-- `index_sample.reshape([1, 1, L_Q, sample_k, 1]).tile([B, H, 1, 1, E])`:
the one random `[L_Q, sample_k]` index table, broadcast over batch, head and
feature axes. -/
def indexSampleTiled (r : ℕ → ℕ → Fin LK) :
    Fin B → Fin H → Fin LQ → ℕ → Fin E → Fin LK :=
  fun _ _ q s _ => r q s

/-- `K_sample = K_expand.index_sample(index_sample)`: gather along the key
axis at the tiled random indices. -/
def K_sample (K : Fin B → Fin H → Fin LK → Fin E → ℚ) (r : ℕ → ℕ → Fin LK) :
    Fin B → Fin H → Fin LQ → ℕ → Fin E → ℚ :=
  fun b h q s e =>
    K_expand (B := B) K b h q (indexSampleTiled (B := B) r b h q s e) e

/-- `Q_K_sample = matmul(Q.unsqueeze(-2), K_sample.transpose(-2, -1)).squeeze(-2)`:
the sampled score of query `q` against its `s`-th sampled key. -/
def Q_K_sampleT (Q : Fin B → Fin H → Fin LQ → Fin E → ℚ)
    (K : Fin B → Fin H → Fin LK → Fin E → ℚ) (r : ℕ → ℕ → Fin LK) :
    Fin B → Fin H → Fin LQ → ℕ → ℚ :=
  fun b h q s => ∑ e, Q b h q e * K_sample K r b h q s e

/-- `Q_K_sample.max(-1)`: the `[B, H, L_Q]` tensor of per-row maxima over the
`sample_k` sampled scores (paddle.max returns the values tensor only). -/
def sampleMax (sk : ℕ) (QKs : Fin B → Fin H → Fin LQ → ℕ → ℚ) :
    Fin B → Fin H → Fin LQ → ℚ :=
  fun b h q => rowMax sk (QKs b h q)

/-- `M = Q_K_sample.max(-1)[0] - paddle.div(Q_K_sample.sum(-1), L_K)` in
`ProbAttention._prob_QK`.  Since `paddle.max` returns only the values, the
`[0]` slices batch `0` off the `[B, H, L_Q]` max tensor, and the subtraction
broadcasts that `[H, L_Q]` slice over the batch axis; the divisor of the
summed sampled scores is `L_K`, not the number of sampled scores. -/
def Mmeas (Q : Fin B → Fin H → Fin LQ → Fin E → ℚ)
    (K : Fin B → Fin H → Fin LK → Fin E → ℚ) (r : ℕ → ℕ → Fin LK) (sk : ℕ) :
    Fin B → Fin H → Fin LQ → ℚ :=
  fun b h q =>
    sampleMax sk (Q_K_sampleT Q K r) ⟨0, b.pos⟩ h q -
      (∑ s ∈ Finset.range sk, Q_K_sampleT Q K r b h q s) / (LK : ℚ)

/-- `M_top = M.topk(n_top, sorted=False)[1]` per batch/head slice: the
Selection Index of `ProbAttention._prob_QK`. -/
def selectionOf (Q : Fin B → Fin H → Fin LQ → Fin E → ℚ)
    (K : Fin B → Fin H → Fin LK → Fin E → ℚ) (r : ℕ → ℕ → Fin LK)
    (sample_k n_top : ℕ) : Fin B → Fin H → List (Fin LQ) :=
  fun b h => topkIndices (Mmeas Q K r sample_k b h) n_top

/-- `ProbAttention._prob_QK(Q, K, sample_k, n_top)`: returns the exact score
rows `Q_K = matmul(Q_reduce, K.transpose(-2, -1))` of the selected queries
(one `[L_K]` row per selected index, in selection order) together with the
Selection Index `M_top`. -/
def probQK (Q : Fin B → Fin H → Fin LQ → Fin E → ℚ)
    (K : Fin B → Fin H → Fin LK → Fin E → ℚ) (r : ℕ → ℕ → Fin LK)
    (sample_k n_top : ℕ) :
    (Fin B → Fin H → List (Fin LK → ℚ)) × (Fin B → Fin H → List (Fin LQ)) :=
  let M_top := selectionOf Q K r sample_k n_top
  let Q_reduce : Fin B → Fin H → List (Fin E → ℚ) :=
    fun b h => (M_top b h).map (fun q => Q b h q)
  let Q_K : Fin B → Fin H → List (Fin LK → ℚ) :=
    fun b h => (Q_reduce b h).map (fun qr j => ∑ e, qr e * K b h j e)
  (Q_K, M_top)

/-- `ProbAttention._get_initial_context(V, L_Q)`.  With `mask_flag` unset the
context is `V.mean(axis=-2)` broadcast (`unsqueeze(-2).expand(...)`) to all
`L_Q` rows; with it set the code asserts `L_Q == L_V` (modelled as `none` on
failure) and returns `V.cumsum(axis=-2)`, whose row `i` sums the values at
key positions `0..i`. -/
def getInitialContext (LQ : ℕ) (mask_flag : Bool)
    (V : Fin B → Fin H → Fin LV → Fin Dv → ℚ) :
    Option (Fin B → Fin H → Fin LQ → Fin Dv → ℚ) :=
  if mask_flag = false then
    let V_sum : Fin B → Fin H → Fin Dv → ℚ :=
      fun b h d => (∑ j, V b h j d) / (LV : ℚ)
    some (fun b h _ d => V_sum b h d)
  else
    if LQ = LV then
      some (fun b h i d =>
        ∑ j ∈ Finset.univ.filter (fun j : Fin LV => (j : ℕ) ≤ (i : ℕ)),
          V b h j d)
    else none

/-- Advanced-index assignment
`t[arange(B)[:,None,None], arange(H)[None,:,None], index, :] = vals` on one
batch/head slice: the writes are applied in index order, a later write to
the same row winning. -/
def writeList {κ α : Type} [DecidableEq κ] (pairs : List (κ × α))
    (base : κ → α) : κ → α :=
  pairs.foldl (fun acc p q => if q = p.1 then p.2 else acc q) base

/-- The placeholder weights tensor of `_update_context` under
`output_attention`: `ones([B, H, L_V, L_V]) / L_V` with the true softmax
rows written at the selected query indices (row positions compared by
numeric value). -/
def writeAttns {LQ LV : ℕ} (idx : List (Fin LQ)) (rows : List (Fin LV → ℚ)) :
    Fin LV → Fin LV → ℚ :=
  (idx.zip rows).foldl
    (fun acc p i => if (i : ℕ) = (p.1 : ℕ) then p.2 else acc i)
    (fun _ _ => 1 / (LV : ℚ))

/-- `ProbAttention._update_context(context_in, V, scores, index, L_Q,
attn_mask)`.  Under `mask_flag` the passed `attn_mask` is discarded and a
fresh `ProbMask` is built from the Selection Index (the local variable is
reassigned); without it no mask is applied at all, so the argument is never
read in either case.  The masked scores go through softmax, the exact
context rows `matmul(attn, V)` are scattered into `context_in` at the
selected rows, and under `output_attention` a `1/L_V`-uniform weights tensor
receives the softmax rows at the same positions. -/
def updateContext (cfg : AttnCfg) (f : ℚ → ℚ)
    (context_in : Fin B → Fin H → Fin LQ → Fin Dv → ℚ)
    (V : Fin B → Fin H → Fin LV → Fin Dv → ℚ)
    (scores : Fin B → Fin H → List (Fin LV → ℚ))
    (index : Fin B → Fin H → List (Fin LQ))
    (attn_mask : Option (Fin B → Fin LQ → Fin LV → Bool)) :
    (Fin B → Fin H → Fin LQ → Fin Dv → ℚ) ×
      Option (Fin B → Fin H → Fin LV → Fin LV → ℚ) :=
  let maskedRows : Fin B → Fin H → List ((Fin LV → Bool) × (Fin LV → ℚ)) :=
    fun b h =>
      if cfg.mask_flag then
        ((index b h).zip (scores b h)).map (fun p => (probMaskRow p.1, p.2))
      else
        (scores b h).map (fun row => (fun _ => false, row))
  let attnRows : Fin B → Fin H → List (Fin LV → ℚ) :=
    fun b h => (maskedRows b h).map (fun p => softmaxNeg LV f p.1 p.2)
  let ctxRows : Fin B → Fin H → List (Fin Dv → ℚ) :=
    fun b h => (attnRows b h).map (fun row d => ∑ j, row j * V b h j d)
  let ctxOut : Fin B → Fin H → Fin LQ → Fin Dv → ℚ :=
    fun b h => writeList ((index b h).zip (ctxRows b h)) (context_in b h)
  (ctxOut,
    if cfg.output_attention then
      some (fun b h => writeAttns (index b h) (attnRows b h))
    else none)

/-- `ProbAttention.forward(queries, keys, values, attn_mask)` with inputs in
`[B, L, H, E]` layout: transpose to `[B, H, L, E]`, compute the clipped
sample and selection sizes, run `_prob_QK`, scale the selected score rows,
initialise the context (`none` when the causal shape assert fires), update
it at the selected rows, and transpose the context back. -/
def probAttentionForward (cfg : AttnCfg) (f : ℚ → ℚ) (invSqrt : ℕ → ℚ)
    (cln : ℕ → ℕ) (r : ℕ → ℕ → Fin LK)
    (queries : Fin B → Fin LQ → Fin H → Fin E → ℚ)
    (keys : Fin B → Fin LK → Fin H → Fin E → ℚ)
    (values : Fin B → Fin LK → Fin H → Fin Dv → ℚ)
    (attn_mask : Option (Fin B → Fin LQ → Fin LK → Bool)) :
    Option ((Fin B → Fin LQ → Fin H → Fin Dv → ℚ) ×
      Option (Fin B → Fin H → Fin LK → Fin LK → ℚ)) :=
  let Qh : Fin B → Fin H → Fin LQ → Fin E → ℚ := fun b h l e => queries b l h e
  let Kh : Fin B → Fin H → Fin LK → Fin E → ℚ := fun b h l e => keys b l h e
  let Vh : Fin B → Fin H → Fin LK → Fin Dv → ℚ := fun b h l d => values b l h d
  let U_part := uPartOf cfg.factor cln LK
  let u := nTopOf cfg.factor cln LQ
  let pq := probQK Qh Kh r U_part u
  let scale := cfg.scale.getD (invSqrt E)
  let scoresTop : Fin B → Fin H → List (Fin LK → ℚ) :=
    fun b h => (pq.1 b h).map (fun row j => row j * scale)
  match getInitialContext LQ cfg.mask_flag Vh with
  | none => none
  | some context =>
      let cu := updateContext cfg f context Vh scoresTop pq.2 attn_mask
      some (fun b l h d => cu.1 b h l d, cu.2)

/-- `scores = paddle.einsum("blhe,bshe->bhls", queries, keys)` in
`FullAttention.forward`. -/
def denseScores (queries : Fin B → Fin L → Fin H → Fin E → ℚ)
    (keys : Fin B → Fin S → Fin H → Fin E → ℚ) :
    Fin B → Fin H → Fin L → Fin S → ℚ :=
  fun b h l s => ∑ e, queries b l h e * keys b s h e

/-- The mask `FullAttention.forward` applies: under `mask_flag`, the given
mask or, when none is supplied, `TriangularCausalMask(B, L)` (the source
builds it as an `[B, 1, L, L]` boolean triu, applicable when `S = L`; the
embedding states the same predicate over `Fin L → Fin S`); without
`mask_flag`, nothing is masked. -/
def denseMaskOf (cfg : AttnCfg)
    (attn_mask : Option (Fin B → Fin L → Fin S → Bool)) :
    Fin B → Fin L → Fin S → Bool :=
  if cfg.mask_flag then
    attn_mask.getD (fun _ i j => decide ((i : ℕ) + 1 ≤ (j : ℕ)))
  else fun _ _ _ => false

/-- `A = self.dropout(F.softmax(scale * scores, axis=-1))` in
`FullAttention.forward`, with the `-np.inf` fill of the masked entries
folded into `softmaxNeg` and the dropout module modelled by its elementwise
multiplier tensor `dropM` (all-ones in eval mode; `0` or `1/(1-p)` per entry
in train mode). -/
def denseAttnWeights (cfg : AttnCfg) (f : ℚ → ℚ) (invSqrt : ℕ → ℚ)
    (dropM : Fin B → Fin H → Fin L → Fin S → ℚ)
    (queries : Fin B → Fin L → Fin H → Fin E → ℚ)
    (keys : Fin B → Fin S → Fin H → Fin E → ℚ)
    (attn_mask : Option (Fin B → Fin L → Fin S → Bool)) :
    Fin B → Fin H → Fin L → Fin S → ℚ :=
  fun b h l s =>
    softmaxNeg S f (denseMaskOf cfg attn_mask b l)
      (fun j => cfg.scale.getD (invSqrt E) * denseScores queries keys b h l j)
      s * dropM b h l s

/-- `FullAttention.forward`: the context `einsum("bhls,bshd->blhd", A, values)`
and, under `output_attention`, the weights `A`. -/
def fullAttentionForward (cfg : AttnCfg) (f : ℚ → ℚ) (invSqrt : ℕ → ℚ)
    (dropM : Fin B → Fin H → Fin L → Fin S → ℚ)
    (queries : Fin B → Fin L → Fin H → Fin E → ℚ)
    (keys : Fin B → Fin S → Fin H → Fin E → ℚ)
    (values : Fin B → Fin S → Fin H → Fin Dv → ℚ)
    (attn_mask : Option (Fin B → Fin L → Fin S → Bool)) :
    (Fin B → Fin L → Fin H → Fin Dv → ℚ) ×
      Option (Fin B → Fin H → Fin L → Fin S → ℚ) :=
  let A := denseAttnWeights cfg f invSqrt dropM queries keys attn_mask
  (fun b l h d => ∑ s, A b h l s * values b s h d,
    if cfg.output_attention then some A else none)

/-! Helper lemmas about the scatter and the top-k selection. -/

lemma zip_self_map {α β : Type} (l : List α) (g : α → β) :
    l.zip (l.map g) = l.map (fun a => (a, g a)) := by
  induction l with
  | nil => rfl
  | cons a t ih => simp [List.zip_cons_cons, ih]

lemma writeList_cons {κ α : Type} [DecidableEq κ] (p : κ × α)
    (rest : List (κ × α)) (base : κ → α) :
    writeList (p :: rest) base =
      writeList rest (fun q => if q = p.1 then p.2 else base q) := rfl

lemma writeList_not_mem {κ α : Type} [DecidableEq κ] (pairs : List (κ × α))
    (base : κ → α) (q : κ) (h : ∀ p ∈ pairs, p.1 ≠ q) :
    writeList pairs base q = base q := by
  induction pairs generalizing base with
  | nil => rfl
  | cons p rest ih =>
      rw [writeList_cons, ih _ (fun p hp => h p (List.mem_cons_of_mem _ hp))]
      have hne : q ≠ p.1 := fun hq => h p (List.mem_cons_self _ _) hq.symm
      rw [if_neg hne]

lemma writeList_map_self {κ α : Type} [DecidableEq κ] (l : List κ)
    (G : κ → α) (base : κ → α) (q : κ) (hq : q ∈ l) :
    writeList (l.map (fun a => (a, G a))) base q = G q := by
  induction l generalizing base with
  | nil => cases hq
  | cons a t ih =>
      rw [List.map_cons, writeList_cons]
      by_cases ht : q ∈ t
      · exact ih _ ht
      · have hqa : q = a := by
          rcases List.mem_cons.mp hq with h | h
          · exact h
          · exact absurd h ht
        rw [writeList_not_mem]
        · simp [hqa]
        · intro p hp
          rcases List.mem_map.mp hp with ⟨x, hx, rfl⟩
          intro hxq
          exact ht (hxq ▸ hx)

lemma length_topkIndices {L : ℕ} (M : Fin L → ℚ) (k : ℕ) (hk : k ≤ L) :
    (topkIndices M k).length = k := by
  unfold topkIndices
  rw [List.length_take,
    (List.perm_insertionSort (fun i j => M j ≤ M i) (List.finRange L)).length_eq,
    List.length_finRange]
  exact Nat.min_eq_left hk

lemma nodup_topkIndices {L : ℕ} (M : Fin L → ℚ) (k : ℕ) :
    (topkIndices M k).Nodup := by
  unfold topkIndices
  refine List.Nodup.sublist (List.take_sublist _ _) ?_
  exact ((List.perm_insertionSort (fun i j => M j ≤ M i)
    (List.finRange L)).nodup_iff).mpr (List.nodup_finRange L)

lemma mem_topkIndices_all {L : ℕ} (M : Fin L → ℚ) (q : Fin L) :
    q ∈ topkIndices M L := by
  unfold topkIndices
  have hlen :
      (List.insertionSort (fun i j => M j ≤ M i) (List.finRange L)).length = L := by
    rw [(List.perm_insertionSort (fun i j => M j ≤ M i)
      (List.finRange L)).length_eq, List.length_finRange]
  rw [List.take_of_length_le (le_of_eq hlen)]
  exact ((List.perm_insertionSort (fun i j => M j ≤ M i)
    (List.finRange L)).mem_iff).mpr (List.mem_finRange q)

lemma clipTo_eq_min (v L : ℕ) : clipTo v L = min v L := by
  unfold clipTo
  split <;> omega

lemma clipTo_le (v L : ℕ) : clipTo v L ≤ L := by
  unfold clipTo
  split <;> omega

lemma writeList_map_self_apply {κ α β : Type} [DecidableEq κ] (l : List κ)
    (G : κ → α → β) (base : κ → α → β) (q : κ) (d : α) (hq : q ∈ l) :
    writeList (l.map (fun a => (a, G a))) base q d = G q d :=
  congrFun (writeList_map_self l G base q hq) d

lemma probQK_rows (Q : Fin B → Fin H → Fin LQ → Fin E → ℚ)
    (K : Fin B → Fin H → Fin LK → Fin E → ℚ) (r : ℕ → ℕ → Fin LK)
    (sample_k n_top : ℕ) (b : Fin B) (h : Fin H) :
    (probQK Q K r sample_k n_top).1 b h =
      (selectionOf Q K r sample_k n_top b h).map
        (fun q j => ∑ e, Q b h q e * K b h j e) := by
  simp only [probQK, List.map_map]
  rfl

lemma updateContext_rows_eq (cfg : AttnCfg) (f : ℚ → ℚ)
    (ctx0 : Fin B → Fin H → Fin LQ → Fin Dv → ℚ)
    (V : Fin B → Fin H → Fin LV → Fin Dv → ℚ)
    (scores : Fin B → Fin H → List (Fin LV → ℚ))
    (idx : Fin B → Fin H → List (Fin LQ))
    (F : Fin B → Fin H → Fin LQ → Fin LV → ℚ)
    (am : Option (Fin B → Fin LQ → Fin LV → Bool))
    (b : Fin B) (h : Fin H) (q : Fin LQ) (d : Fin Dv)
    (hsc : scores = fun b h => (idx b h).map (F b h)) (hq : q ∈ idx b h) :
    (updateContext cfg f ctx0 V scores idx am).1 b h q d =
      ∑ j, softmaxNeg LV f (fun j => cfg.mask_flag && probMaskRow q j)
        (F b h q) j * V b h j d := by
  subst hsc
  cases hm : cfg.mask_flag with
  | false =>
      simp only [updateContext, hm, Bool.false_eq_true, if_false,
        List.map_map, zip_self_map]
      rw [writeList_map_self_apply _ _ _ _ _ hq]
      simp [Function.comp, Bool.false_and]
  | true =>
      simp only [updateContext, hm, if_true, zip_self_map, List.map_map]
      rw [writeList_map_self_apply _ _ _ _ _ hq]
      simp [Function.comp, Bool.true_and]

/-! Concrete instances used by counterexamples and witnesses. -/

/-- A `ProbAttention`/`FullAttention` configuration with causal masking on
(all other fields at their constructor defaults). -/
def cfgMasked : AttnCfg := { mask_flag := true }

/-- A non-causal configuration with unit scale and weight output. -/
def cfgPlain : AttnCfg :=
  { mask_flag := false, scale := some 1, output_attention := true }

/-- Queries for the C1 counterexample: batch 0 holds the zero query, batch 1
the unit query (`B = 2`, `H = 1`, `L_Q = 1`, `E = 1`). -/
def c1Q : Fin 2 → Fin 1 → Fin 1 → Fin 1 → ℚ := fun b _ _ _ => if b = 0 then 0 else 1

/-- All-ones keys with `L_K = 2` for the C1 counterexample. -/
def c1K : Fin 2 → Fin 1 → Fin 2 → Fin 1 → ℚ := fun _ _ _ _ => 1

/-- A fixed random tape that always samples key 0. -/
def c1r : ℕ → ℕ → Fin 2 := fun _ _ => 0

/-! The claims. -/

/-- C1 (counterexample).  With `B = 2`, `L_K = 2` and `u_part = 1`, at batch
1 the code's importance measure differs from
max(sampled scores) − (sum of sampled scores)/u_part: the sampled score of
batch 1 is `1`, so the claimed value is `1 − 1/1 = 0`, while the code
computes `0 − 1/2 = −1/2` (the max is sliced from batch 0 and the divisor
is `L_K`). -/
theorem C1_counterexample :
    Mmeas c1Q c1K c1r 1 1 0 0 ≠
      rowMax 1 (Q_K_sampleT c1Q c1K c1r 1 0 0) -
        (∑ s ∈ Finset.range 1, Q_K_sampleT c1Q c1K c1r 1 0 0 s) / (1 : ℚ) := by
  have h1 : Q_K_sampleT c1Q c1K c1r 1 0 0 = fun _ => 1 := by
    funext s
    simp [Q_K_sampleT, K_sample, K_expand, indexSampleTiled, c1Q, c1K, c1r]
  have h0 : ∀ s, Q_K_sampleT c1Q c1K c1r 0 0 0 s = 0 := by
    intro s
    simp [Q_K_sampleT, K_sample, K_expand, indexSampleTiled, c1Q, c1K, c1r]
  have hM : Mmeas c1Q c1K c1r 1 1 0 0 = -(1/2 : ℚ) := by
    simp [Mmeas, sampleMax, rowMax, List.range_succ, h0, h1]
  rw [hM, h1]
  simp [rowMax, List.range_succ]

/-- C1 (amended).  The importance measure the code computes at
`(b, h, q)` is the maximum of the **batch 0** sampled scores at `(h, q)`
minus the sum of the `(b, h, q)` sampled scores divided by **L_K**:
`paddle.max` returns only the values tensor, so the `[0]` in
`Q_K_sample.max(-1)[0]` slices batch 0 (broadcast over the batch axis by
the subtraction), and `paddle.div(Q_K_sample.sum(-1), L_K)` divides by the
full key length rather than by the `u_part` sampled scores. -/
theorem C1_amended (Q : Fin B → Fin H → Fin LQ → Fin E → ℚ)
    (K : Fin B → Fin H → Fin LK → Fin E → ℚ) (r : ℕ → ℕ → Fin LK) (sk : ℕ)
    (b : Fin B) (h : Fin H) (q : Fin LQ) :
    Mmeas Q K r sk b h q =
      rowMax sk (fun s => ∑ e, Q ⟨0, b.pos⟩ h q e * K ⟨0, b.pos⟩ h (r q s) e) -
        (∑ s ∈ Finset.range sk, ∑ e, Q b h q e * K b h (r q s) e) / (LK : ℚ) :=
  rfl

/-- C2 (counterexample, stating the negation of the claim at a concrete
shape): for `B = 2`, `H = 2`, `L_Q = 3`, `L_K = 2`, `sample_k` arbitrary,
EVERY possible random draw produces identical sampled key indices at
batch 0/head 0 and at batch 1/head 1 — the `[L_Q, sample_k]` table is tiled
over the batch and head axes, so the sampled set can never differ across
batches or heads. -/
def sampleIndexSharedAcrossBatchHead : Prop :=
  ∀ r : ℕ → ℕ → Fin 2, ∀ q : Fin 3, ∀ s : ℕ,
    indexSampleTiled (B := 2) (H := 2) (E := 1) r 0 0 q s 0 =
      indexSampleTiled (B := 2) (H := 2) (E := 1) r 1 1 q s 0

/-- C2 (counterexample).  The sampled index sets coincide across batches
and heads for every random draw, refuting per-(batch, head, query)
independence. -/
theorem C2_counterexample : sampleIndexSharedAcrossBatchHead :=
  fun _ _ _ => rfl

/-- C2 (amended).  One `[L_Q, sample_k]` index table is drawn per call
(each query position has its own row of `u_part` random indices), and the
`reshape`/`tile` broadcasts that same table to every batch, head and
feature position: the sampled indices at `(b, h, q, s)` and `(b', h', q, s)`
are always equal. -/
theorem C2_amended (r : ℕ → ℕ → Fin LK) (b b' : Fin B) (h h' : Fin H)
    (q : Fin LQ) (s : ℕ) (e e' : Fin E) :
    indexSampleTiled r b h q s e = indexSampleTiled r b' h' q s e' :=
  rfl

/-- C3.  `_get_initial_context`: with `mask_flag` false every one of the
`L_Q` context rows is the mean of `V` over the key axis; with `mask_flag`
true (and the asserted `L_Q = L_V`) row `i` is the cumulative sum of `V`
over key positions `0..i`. -/
theorem C3_initial_context (V : Fin B → Fin H → Fin LV → Fin Dv → ℚ)
    (LQ : ℕ) :
    getInitialContext LQ false V =
      some (fun b h _ d => (∑ j, V b h j d) / (LV : ℚ)) ∧
    getInitialContext LV true V =
      some (fun b h (i : Fin LV) d =>
        ∑ j ∈ Finset.univ.filter (fun j : Fin LV => (j : ℕ) ≤ (i : ℕ)),
          V b h j d) := by
  constructor
  · rfl
  · simp [getInitialContext]

/-- C5.  `u_part = min(factor·⌈ln L_K⌉, L_K)` and
`n_top = min(factor·⌈ln L_Q⌉, L_Q)` (with `cln` the integer ceil-log the
code computes), and for every batch/head pair the Selection Index has
exactly `n_top` entries, pairwise distinct, each a query index below
`L_Q`. -/
theorem C5_sizes_and_selection (factor : ℕ) (cln : ℕ → ℕ)
    (Q : Fin B → Fin H → Fin LQ → Fin E → ℚ)
    (K : Fin B → Fin H → Fin LK → Fin E → ℚ) (r : ℕ → ℕ → Fin LK)
    (b : Fin B) (h : Fin H) :
    uPartOf factor cln LK = min (factor * cln LK) LK ∧
    nTopOf factor cln LQ = min (factor * cln LQ) LQ ∧
    (selectionOf Q K r (uPartOf factor cln LK) (nTopOf factor cln LQ) b h).length =
      nTopOf factor cln LQ ∧
    (selectionOf Q K r (uPartOf factor cln LK) (nTopOf factor cln LQ) b h).Nodup ∧
    ∀ q ∈ selectionOf Q K r (uPartOf factor cln LK) (nTopOf factor cln LQ) b h,
      (q : ℕ) < LQ :=
  ⟨clipTo_eq_min _ _, clipTo_eq_min _ _,
    length_topkIndices _ _ (clipTo_le _ _), nodup_topkIndices _ _,
    fun q _ => q.isLt⟩

/-- C7.  With `mask_flag` true and `L_Q ≠ L_K`, the assert
`L_Q == L_V` in `_get_initial_context` fires and the error propagates:
`ProbAttention.forward` produces no context. -/
theorem C7_causal_shape_error (cfg : AttnCfg) (f : ℚ → ℚ) (invSqrt : ℕ → ℚ)
    (cln : ℕ → ℕ) (r : ℕ → ℕ → Fin LK)
    (queries : Fin B → Fin LQ → Fin H → Fin E → ℚ)
    (keys : Fin B → Fin LK → Fin H → Fin E → ℚ)
    (values : Fin B → Fin LK → Fin H → Fin Dv → ℚ)
    (am : Option (Fin B → Fin LQ → Fin LK → Bool))
    (hm : cfg.mask_flag = true) (hne : LQ ≠ LK) :
    probAttentionForward cfg f invSqrt cln r queries keys values am = none := by
  simp [probAttentionForward, getInitialContext, hm, hne]

/-- Queries of shape `[1, 1, 1, 1]` for the C7 witness. -/
def c7Q : Fin 1 → Fin 1 → Fin 1 → Fin 1 → ℚ := fun _ _ _ _ => 1

/-- Keys/values of shape `[1, 2, 1, 1]` for the C7 witness. -/
def c7K : Fin 1 → Fin 2 → Fin 1 → Fin 1 → ℚ := fun _ _ _ _ => 1

/-- C7 witness: the concrete causal call with `L_Q = 1 ≠ 2 = L_K` returns
no context. -/
theorem C7_witness :
    probAttentionForward cfgMasked (fun _ => 1) (fun _ => 1) (fun _ => 1)
      (fun _ _ => 0) c7Q c7K c7K none = none :=
  C7_causal_shape_error cfgMasked (fun _ => 1) (fun _ => 1) (fun _ => 1)
    (fun _ _ => 0) c7Q c7K c7K none rfl (by decide)

/-- C4.  Frame property of `_update_context`: a context row whose query
index is not in the Selection Index keeps exactly its initial value — the
scatter writes only at the selected rows. -/
theorem C4_frame (cfg : AttnCfg) (f : ℚ → ℚ)
    (context_in : Fin B → Fin H → Fin LQ → Fin Dv → ℚ)
    (V : Fin B → Fin H → Fin LV → Fin Dv → ℚ)
    (scores : Fin B → Fin H → List (Fin LV → ℚ))
    (index : Fin B → Fin H → List (Fin LQ))
    (am : Option (Fin B → Fin LQ → Fin LV → Bool))
    (b : Fin B) (h : Fin H) (q : Fin LQ) (d : Fin Dv)
    (hq : q ∉ index b h) :
    (updateContext cfg f context_in V scores index am).1 b h q d =
      context_in b h q d := by
  simp only [updateContext]
  refine congrFun (writeList_not_mem _ _ _ ?_) d
  intro p hp hpq
  exact hq (hpq ▸ (List.of_mem_zip hp).1)

/-- Initial context for the C4 witness: row 0 holds 5, row 1 holds 7. -/
def c4ctx : Fin 1 → Fin 1 → Fin 2 → Fin 1 → ℚ :=
  fun _ _ i _ => if i = 0 then 5 else 7

/-- A single all-threes value row for the C4 witness. -/
def c4V : Fin 1 → Fin 1 → Fin 1 → Fin 1 → ℚ := fun _ _ _ _ => 3

/-- One selected score row for the C4 witness. -/
def c4scores : Fin 1 → Fin 1 → List (Fin 1 → ℚ) := fun _ _ => [fun _ => 1]

/-- Selection Index `[0]` for the C4 witness: row 1 is unselected. -/
def c4index : Fin 1 → Fin 1 → List (Fin 2) := fun _ _ => [0]

/-- C4 witness: with selection `[0]`, the unselected row 1 keeps its
initial value. -/
theorem C4_witness :
    (updateContext cfgMasked (fun _ => 1) c4ctx c4V c4scores c4index
      none).1 0 0 1 0 = c4ctx 0 0 1 0 :=
  C4_frame cfgMasked (fun _ => 1) c4ctx c4V c4scores c4index none 0 0 1 0
    (by decide)

/-- C8.  The causal mask of `FullAttention.forward` (built when no mask is
supplied) forbids exactly the pairs with key index `j > i`, and the
resulting attention weight at such a pair is exactly `0` — the masked score
is `-∞`, its exponential `0`, and dropout preserves `0`. -/
theorem C8_causal_zero (cfg : AttnCfg) (f : ℚ → ℚ) (invSqrt : ℕ → ℚ)
    (dropM : Fin B → Fin H → Fin L → Fin L → ℚ)
    (queries : Fin B → Fin L → Fin H → Fin E → ℚ)
    (keys : Fin B → Fin L → Fin H → Fin E → ℚ)
    (b : Fin B) (hh : Fin H) (i j : Fin L)
    (hm : cfg.mask_flag = true) (hij : (i : ℕ) < (j : ℕ)) :
    (∀ (b' : Fin B) (i' j' : Fin L),
        triangularCausalMask B L b' i' j' = true ↔ (i' : ℕ) < (j' : ℕ)) ∧
    denseAttnWeights cfg f invSqrt dropM queries keys none b hh i j = 0 := by
  constructor
  · intro b' i' j'
    simp only [triangularCausalMask, decide_eq_true_eq]
    omega
  · have hj : (i : ℕ) + 1 ≤ (j : ℕ) := hij
    simp [denseAttnWeights, softmaxNeg, denseMaskOf, hm, hj]

/-- All-ones queries/keys of shape `[1, 2, 1, 1]` for the C8 witness. -/
def c8q : Fin 1 → Fin 2 → Fin 1 → Fin 1 → ℚ := fun _ _ _ _ => 1

/-- C8 witness: at the concrete causal call with `L = 2` the mask is the
strict upper triangle and the weight at `(0, 1)` is zero. -/
theorem C8_witness :
    (∀ (b' : Fin 1) (i' j' : Fin 2),
        triangularCausalMask 1 2 b' i' j' = true ↔ (i' : ℕ) < (j' : ℕ)) ∧
    denseAttnWeights cfgMasked (fun _ => 1) (fun _ => 1) (fun _ _ _ _ => 1)
      c8q c8q none 0 0 0 1 = 0 :=
  C8_causal_zero cfgMasked (fun _ => 1) (fun _ => 1) (fun _ _ _ _ => 1)
    c8q c8q 0 0 0 1 rfl (by decide)

/-- C9.  `ProbAttention.forward` ignores its `attn_mask` argument entirely:
under `mask_flag` the `_update_context` local is overwritten by a freshly
built `ProbMask`, and otherwise no mask is applied, so any two mask
arguments (including the none-analogue) give identical outputs. -/
theorem C9_mask_argument_ignored (cfg : AttnCfg) (f : ℚ → ℚ)
    (invSqrt : ℕ → ℚ) (cln : ℕ → ℕ) (r : ℕ → ℕ → Fin LK)
    (queries : Fin B → Fin LQ → Fin H → Fin E → ℚ)
    (keys : Fin B → Fin LK → Fin H → Fin E → ℚ)
    (values : Fin B → Fin LK → Fin H → Fin Dv → ℚ)
    (m₁ m₂ : Option (Fin B → Fin LQ → Fin LK → Bool)) :
    probAttentionForward cfg f invSqrt cln r queries keys values m₁ =
      probAttentionForward cfg f invSqrt cln r queries keys values m₂ :=
  rfl

/-- The all-zero dropout multiplier (every weight dropped). -/
def dropKill : Fin 1 → Fin 1 → Fin 1 → Fin 1 → ℚ := fun _ _ _ _ => 0

/-- The identity dropout multiplier (eval mode). -/
def dropKeep : Fin 1 → Fin 1 → Fin 1 → Fin 1 → ℚ := fun _ _ _ _ => 1

/-- All-ones `[1, 1, 1, 1]` tensor for the C10 dense-side instance. -/
def c10one : Fin 1 → Fin 1 → Fin 1 → Fin 1 → ℚ := fun _ _ _ _ => 1

/-- C10.  `ProbAttention` stores a dropout module but never applies it: its
output is invariant under any change of the configured dropout rate, while
`FullAttention` does multiply its softmax weights by the dropout
multiplier (shown by a concrete dense call whose weights change when the
multiplier does). -/
theorem C10_prob_dropout_unused (cfg : AttnCfg) (f : ℚ → ℚ)
    (invSqrt : ℕ → ℚ) (cln : ℕ → ℕ) (r : ℕ → ℕ → Fin LK)
    (queries : Fin B → Fin LQ → Fin H → Fin E → ℚ)
    (keys : Fin B → Fin LK → Fin H → Fin E → ℚ)
    (values : Fin B → Fin LK → Fin H → Fin Dv → ℚ)
    (am : Option (Fin B → Fin LQ → Fin LK → Bool)) (p₁ p₂ : ℚ) :
    probAttentionForward { cfg with dropoutRate := p₁ } f invSqrt cln r
        queries keys values am =
      probAttentionForward { cfg with dropoutRate := p₂ } f invSqrt cln r
        queries keys values am ∧
    denseAttnWeights cfgPlain (fun _ => 1) (fun _ => 1) dropKill
        c10one c10one none 0 0 0 0 ≠
      denseAttnWeights cfgPlain (fun _ => 1) (fun _ => 1) dropKeep
        c10one c10one none 0 0 0 0 := by
  constructor
  · rfl
  · simp [denseAttnWeights, softmaxNeg, denseMaskOf, denseScores, cfgPlain,
      dropKill, dropKeep, c10one]

lemma selection_all (Q : Fin B → Fin H → Fin LQ → Fin E → ℚ)
    (K : Fin B → Fin H → Fin LK → Fin E → ℚ) (r : ℕ → ℕ → Fin LK)
    (sample_k n_top : ℕ) (hn : n_top = LQ) (b : Fin B) (h : Fin H)
    (q : Fin LQ) : q ∈ selectionOf Q K r sample_k n_top b h := by
  subst hn
  exact mem_topkIndices_all _ q

/-- C6.  When the clipped selection size `n_top` equals `L_Q` (every query
selected), `ProbAttention.forward` returns a context and it coincides with
the `FullAttention.forward` context on the same queries/keys/values, the
same configuration (mask setting and scale) and eval-mode dropout; under a
causal mask this needs the shape precondition `L_Q = L_K`, without which the
ProbSparse call errors out. -/
theorem C6_degenerates_to_dense (cfg : AttnCfg) (f : ℚ → ℚ) (invSqrt : ℕ → ℚ)
    (cln : ℕ → ℕ) (r : ℕ → ℕ → Fin LK)
    (queries : Fin B → Fin LQ → Fin H → Fin E → ℚ)
    (keys : Fin B → Fin LK → Fin H → Fin E → ℚ)
    (values : Fin B → Fin LK → Fin H → Fin Dv → ℚ)
    (am : Option (Fin B → Fin LQ → Fin LK → Bool))
    (htop : nTopOf cfg.factor cln LQ = LQ)
    (hLL : cfg.mask_flag = true → LQ = LK) :
    ∃ out, probAttentionForward cfg f invSqrt cln r queries keys values am =
        some out ∧
      out.1 = (fullAttentionForward cfg f invSqrt (fun _ _ _ _ => 1)
        queries keys values none).1 := by
  obtain ⟨c0, hc0⟩ : ∃ c0,
      getInitialContext (B := B) (H := H) LQ
        cfg.mask_flag (fun b h (l : Fin LK) (d : Fin Dv) => values b l h d) =
          some c0 := by
    cases hm : cfg.mask_flag with
    | false =>
        refine ⟨fun b h _ d => (∑ j, values b j h d) / (LK : ℚ), ?_⟩
        unfold getInitialContext
        rw [if_pos rfl]
    | true =>
        refine ⟨fun b h i d =>
          ∑ j ∈ Finset.univ.filter (fun j : Fin LK => (j : ℕ) ≤ (i : ℕ)),
            values b j h d, ?_⟩
        unfold getInitialContext
        rw [if_neg (by simp), if_pos (hLL hm)]
  obtain ⟨out, hout⟩ : ∃ out,
      probAttentionForward cfg f invSqrt cln r queries keys values am =
        some out := by
    simp only [probAttentionForward]
    rw [hc0]
    exact ⟨_, rfl⟩
  refine ⟨out, hout, ?_⟩
  simp only [probAttentionForward] at hout
  rw [hc0] at hout
  have hpair := Option.some.inj hout
  subst hpair
  funext b l h d
  have hmem : l ∈ (probQK (fun b h l e => queries b l h e)
      (fun b h l e => keys b l h e) r (uPartOf cfg.factor cln LK)
      (nTopOf cfg.factor cln LQ)).2 b h :=
    selection_all _ _ _ _ _ htop b h l
  have hsc : (fun (b : Fin B) (h : Fin H) =>
      ((probQK (fun b h l e => queries b l h e) (fun b h l e => keys b l h e)
          r (uPartOf cfg.factor cln LK) (nTopOf cfg.factor cln LQ)).1
        b h).map (fun row j => row j * cfg.scale.getD (invSqrt E))) =
      fun b h => ((probQK (fun b h l e => queries b l h e)
          (fun b h l e => keys b l h e) r (uPartOf cfg.factor cln LK)
          (nTopOf cfg.factor cln LQ)).2 b h).map
        ((fun b h q (j : Fin LK) => (∑ e, queries b q h e * keys b j h e) *
            cfg.scale.getD (invSqrt E)) b h) := by
    funext b h
    rw [probQK_rows, List.map_map]
    rfl
  rw [updateContext_rows_eq cfg f c0 _ _ _
    (fun b h q (j : Fin LK) => (∑ e, queries b q h e * keys b j h e) *
      cfg.scale.getD (invSqrt E)) am b h l d hsc hmem]
  have hmask : denseMaskOf (B := B) (L := LQ) (S := LK) cfg none b l =
      fun j => cfg.mask_flag && probMaskRow l j := by
    funext j
    cases hmf : cfg.mask_flag <;> simp [denseMaskOf, hmf, probMaskRow]
  have hsc2 : (fun j : Fin LK => (∑ e, queries b l h e * keys b j h e) *
      cfg.scale.getD (invSqrt E)) =
      fun j : Fin LK => cfg.scale.getD (invSqrt E) *
        ∑ e, queries b l h e * keys b j h e := by
    funext j
    exact mul_comm _ _
  simp only [fullAttentionForward, denseAttnWeights, denseScores, mul_one,
    hmask, hsc2]

/-- C6 witness: a concrete causal call with `B = H = 1`, `L_Q = L_K = 2`,
factor 5 and `⌈ln 2⌉ = 1`, so `n_top = min(5, 2) = 2 = L_Q`; the ProbSparse
context equals the dense one. -/
theorem C6_witness :
    ∃ out, probAttentionForward cfgMasked (fun _ => 1) (fun _ => 1)
        (fun _ => 1) (fun _ _ => 0) c8q c8q c8q none = some out ∧
      out.1 = (fullAttentionForward cfgMasked (fun _ => 1) (fun _ => 1)
        (fun _ _ _ _ => 1) c8q c8q c8q none).1 :=
  C6_degenerates_to_dense cfgMasked (fun _ => 1) (fun _ => 1) (fun _ => 1)
    (fun _ _ => 0) c8q c8q c8q none (by decide) (fun _ => rfl)

end Informer
